import Mathlib

/-!
Verification of the SQL-comment display-option parser of querycanvas
(`src/database/connectionFactory.ts`, class `SqlCommentParser`).

The TypeScript code is shallowly embedded: strings are `List Char`/`String`,
JavaScript numbers are `ℚ` (no claim exercises float rounding), JavaScript
`undefined`-able strings are `Option String`, and the specific regular
expressions of the source (`@column`, `@row`, `@chart`, the `key=value`
clause scanner and the `if<op><num>:<styles>` conditional scanner) are
implemented as recursive scanners that reproduce the leftmost-match and
backtracking behaviour of the JS regex engine on those concrete patterns.
The one crash path of the source (`value.split` on `undefined` when a
`y=""` clause appears in `@chart`) is modelled with `Except Unit`.
-/

deriving instance DecidableEq for Except

/-- JS `\s` (whitespace class), restricted to the characters that can occur
in practice: space, tab, newline, carriage return, form feed, vertical tab,
no-break space, BOM. -/
def jsWs (c : Char) : Bool :=
  c = ' ' || c = '\t' || c = '\n' || c = '\r' ||
  c = Char.ofNat 11 || c = Char.ofNat 12 || c = Char.ofNat 160 || c = Char.ofNat 65279

/-- JS `\w`: ASCII letters, digits and underscore. -/
def isWordChar (c : Char) : Bool :=
  (('0' ≤ c && c ≤ '9') || ('a' ≤ c && c ≤ 'z') || ('A' ≤ c && c ≤ 'Z') || c = '_')

/-- The operator-character class `[<>!=]` used by the conditional and row
directives. -/
def isOpChar (c : Char) : Bool :=
  c = '<' || c = '>' || c = '!' || c = '='

/-- The double-quote character. -/
def dqChar : Char := Char.ofNat 34

/-- The single-quote character. -/
def sqChar : Char := Char.ofNat 39

/-- Digit character for a value `< 10`. -/
def digitChar (n : ℕ) : Char := Char.ofNat (48 + n)

/-- Decimal digits with explicit fuel (kept structurally recursive so the
kernel can evaluate it; the wrapper passes ample fuel). -/
def natDigitsGo : ℕ → ℕ → List Char
  | 0, _ => []
  | fuel + 1, n =>
    if n < 10 then [digitChar n]
    else natDigitsGo fuel (n / 10) ++ [digitChar (n % 10)]

/-- Decimal digits of a natural number, most significant first (model of the
digit sequence JS `String(n)` produces for a natural number). -/
def natDigits (n : ℕ) : List Char := natDigitsGo (n + 1) n

/-- `String(n)` for a natural number. -/
def natStr (n : ℕ) : String := String.mk (natDigits n)

/-- Numeric value of a list of digit characters (most significant first). -/
def natVal (l : List Char) : ℕ :=
  l.foldl (fun a c => a * 10 + (c.toNat - 48)) 0

/-- Euclid's algorithm with explicit fuel (structurally recursive so that the
kernel can evaluate it; `Nat.gcd` itself is defined by well-founded recursion
and does not reduce definitionally). -/
def gcdF : ℕ → ℕ → ℕ → ℕ
  | 0, _, b => b
  | _ + 1, 0, b => b
  | fuel + 1, a + 1, b => gcdF fuel (b % (a + 1)) (a + 1)

/-- `Nat.gcd` computed with ample fuel. -/
def gcdC (a b : ℕ) : ℕ := gcdF (a + 1) a b

/-- An exact rational in lowest terms with positive denominator, standing in
for a JavaScript number (every number this DSL manipulates is an exact
decimal; no claim exercises binary-float rounding).  All arithmetic below
normalizes, so values built by the embedded code are canonical and
structural equality coincides with value equality. -/
structure JNum where
  num : ℤ
  den : ℕ
deriving DecidableEq

instance (n : ℕ) : OfNat JNum n := ⟨⟨n, 1⟩⟩

/-- Canonical rational from a numerator and (positive) denominator. -/
def normQ (n : ℤ) (d : ℕ) : JNum :=
  if d = 0 then ⟨0, 1⟩
  else
    let g := gcdC n.natAbs d
    if g = 0 then ⟨0, 1⟩
    else ⟨n / (g : ℤ), d / g⟩

/-- Rational from a natural number. -/
def JNum.ofNat (n : ℕ) : JNum := ⟨n, 1⟩

/-- Rational from an integer. -/
def JNum.ofInt (n : ℤ) : JNum := ⟨n, 1⟩

/-- Negation (canonical forms stay canonical). -/
def JNum.neg (a : JNum) : JNum := ⟨-a.num, a.den⟩

/-- Addition. -/
def JNum.add (a b : JNum) : JNum :=
  normQ (a.num * b.den + b.num * a.den) (a.den * b.den)

/-- Subtraction. -/
def JNum.sub (a b : JNum) : JNum :=
  normQ (a.num * b.den - b.num * a.den) (a.den * b.den)

/-- Multiplication. -/
def JNum.mul (a b : JNum) : JNum :=
  normQ (a.num * b.num) (a.den * b.den)

/-- Strict order (cross-multiplication; denominators are positive). -/
def JNum.blt (a b : JNum) : Bool := a.num * (b.den : ℤ) < b.num * (a.den : ℤ)

/-- Non-strict order. -/
def JNum.ble (a b : JNum) : Bool := a.num * (b.den : ℤ) ≤ b.num * (a.den : ℤ)

/-- Floor to an integer. -/
def JNum.floorz (a : JNum) : ℤ := a.num.fdiv a.den

/-- Value of a fractional digit run `F` read after a decimal point. -/
def fracVal (l : List Char) : JNum :=
  normQ (natVal l) (10 ^ l.length)

/-- Applies a JS float exponent suffix (`e`/`E`, optional sign, digits) found
at the head of `rest` to `v`; a malformed exponent is ignored, exactly as JS
`parseFloat` ignores a trailing `e` with no digits. -/
def applyExp (v : JNum) (rest : List Char) : JNum :=
  if rest.head? = some 'e' ∨ rest.head? = some 'E' then
    let t := rest.tail
    let negE : Bool := t.head? = some '-'
    let t2 := if t.head? = some '-' ∨ t.head? = some '+' then t.tail else t
    let E := t2.takeWhile Char.isDigit
    if E = [] then v
    else if negE then v.mul (normQ 1 (10 ^ natVal E))
    else v.mul (JNum.ofNat (10 ^ natVal E))
  else v

/-- The digits/fraction/exponent part of `parseFloat`, after leading
whitespace and the sign have been consumed (`neg` records the sign). -/
def parseFloatCore (neg : Bool) (l2 : List Char) : Option JNum :=
  let D := l2.takeWhile Char.isDigit
  let r1 := l2.dropWhile Char.isDigit
  let fin : JNum → Option JNum := fun v => some (if neg then v.neg else v)
  if D = [] then
    if r1.head? = some '.' then
      let F := r1.tail.takeWhile Char.isDigit
      if F = [] then none
      else fin (applyExp (fracVal F) (r1.tail.dropWhile Char.isDigit))
    else none
  else
    if r1.head? = some '.' then
      let F := r1.tail.takeWhile Char.isDigit
      fin (applyExp ((JNum.ofNat (natVal D)).add (fracVal F)) (r1.tail.dropWhile Char.isDigit))
    else fin (applyExp (JNum.ofNat (natVal D)) r1)

/-- JS `parseFloat` on a character list: leading whitespace skipped, optional
sign, `Digits[.Digits]` or `.Digits`, optional exponent; the longest valid
prefix is converted and `none` models `NaN`.  (`Infinity` literals are not
modelled; no input of this code base produces them.) -/
def parseFloatL (l : List Char) : Option JNum :=
  let l1 := l.dropWhile jsWs
  let neg : Bool := l1.head? = some '-'
  let l2 : List Char := if l1.head? = some '-' ∨ l1.head? = some '+' then l1.tail else l1
  parseFloatCore neg l2

/-- JS `parseFloat` on a string; `none` models `NaN`. -/
def parseFloatJS (s : String) : Option JNum := parseFloatL s.toList

/-- JS `parseInt(s, 10)` on a character list; `none` models `NaN`. -/
def parseIntL (l : List Char) : Option ℤ :=
  let l1 := l.dropWhile jsWs
  let neg : Bool := l1.head? = some '-'
  let l2 : List Char := if l1.head? = some '-' ∨ l1.head? = some '+' then l1.tail else l1
  let D := l2.takeWhile Char.isDigit
  if D = [] then none
  else some (if neg then -(natVal D : ℤ) else (natVal D : ℤ))

/-- JS `parseInt(value, 10)` where `value` may be `undefined`
(`parseInt(undefined)` parses the string "undefined", i.e. `NaN`). -/
def parseIntJS (v : Option String) : Option ℤ :=
  match v with
  | none => none
  | some s => parseIntL s.toList

/-- Fractional decimal digits of `0 ≤ r < 1`, with fuel; stops when the
remainder is zero, so a terminating decimal is rendered exactly and without
trailing zeros, matching JS number-to-string output on the decimal values
this code manipulates. -/
def fracDigits : ℕ → JNum → List Char
  | 0, _ => []
  | fuel + 1, r =>
    if r.num = 0 then []
    else
      let r10 := r.mul (JNum.ofNat 10)
      let d : ℤ := r10.floorz
      digitChar d.toNat :: fracDigits fuel (r10.sub (JNum.ofInt d))

/-- JS `String(x)` / `Number.prototype.toString` for the rationals handled
here (finite decimals; a non-terminating expansion is truncated at 20 digits,
a case no claim exercises). -/
def qToStr (q : JNum) : String :=
  let s : List Char := if q.num < 0 then ['-'] else []
  let a : JNum := ⟨q.num.natAbs, q.den⟩
  let ip : ℕ := a.floorz.toNat
  let fr : JNum := a.sub (JNum.ofNat ip)
  String.mk (s ++ natDigits ip ++ (if fr.num = 0 then [] else '.' :: fracDigits 20 fr))

/-- A JavaScript runtime value as it reaches the formatting/styling
functions: a number, a string, `null`, or `undefined`. -/
inductive JVal where
  | num (q : JNum)
  | str (s : String)
  | null
  | jundefined
deriving DecidableEq

/-- JS `String(value)`. -/
def strOfJVal : JVal → String
  | .num q => qToStr q
  | .str s => s
  | .null => "null"
  | .jundefined => "undefined"

/-- `typeof value === 'number' ? value : parseFloat(String(value))`, with
`none` for `NaN` (the pattern used by `generateConditionalStyle` and
`generateRowStyle`). -/
def numValueOf (v : JVal) : Option JNum :=
  match v with
  | .num q => some q
  | v => parseFloatJS (strOfJVal v)

/-- `value === 'true'` for a possibly-`undefined` JS string value. -/
def jsEqTrue (v : Option String) : Bool :=
  match v with
  | some s => s = "true"
  | none => false

/-- JS `a || b` on possibly-`undefined` strings (`""` is falsy). -/
def jsOrS (a b : Option String) : Option String :=
  match a with
  | some s => if s = "" then b else some s
  | none => b

/-- Truthiness of a possibly-`undefined` JS string. -/
def truthyS (a : Option String) : Bool :=
  match a with
  | some s => s ≠ ""
  | none => false

/-- The six comparison operators of `ConditionalStyleRule`/`RowStyleRule`. -/
inductive CmpOp where
  | lt | gt | le | ge | eq | ne
deriving DecidableEq

/-- Operator normalization of `parseColumnDirective`/`parseRowDirective`:
the captured operator run must be exactly one of the six operators. -/
def normalizeOp (s : String) : Option CmpOp :=
  if s = "<" then some .lt
  else if s = ">" then some .gt
  else if s = "<=" then some .le
  else if s = ">=" then some .ge
  else if s = "==" then some .eq
  else if s = "!=" then some .ne
  else none

/-- Numeric comparison (JS `<`, `>`, `<=`, `>=`, `===`, `!==` on numbers). -/
def evalCmp (op : CmpOp) (a b : JNum) : Bool :=
  match op with
  | .lt => a.blt b
  | .gt => b.blt a
  | .le => a.ble b
  | .ge => b.ble a
  | .eq => a = b
  | .ne => a ≠ b

/-- Lexicographic comparison of two character lists by code point, the order
JS uses for `<` on strings (surrogate-pair corner cases aside, which no
claim exercises). -/
def lexLt : List Char → List Char → Bool
  | [], [] => false
  | [], _ :: _ => true
  | _ :: _, [] => false
  | a :: as, b :: bs => if a = b then lexLt as bs else a < b

/-- String comparison (JS `<`, `>`, `<=`, `>=`, `===`, `!==` on strings). -/
def evalCmpStr (op : CmpOp) (a b : String) : Bool :=
  match op with
  | .eq => a = b
  | .ne => a ≠ b
  | .lt => lexLt a.toList b.toList
  | .gt => lexLt b.toList a.toList
  | .le => !(lexLt b.toList a.toList)
  | .ge => !(lexLt a.toList b.toList)

/-- The `styles` record shared by `ConditionalStyleRule` and `RowStyleRule`
(keys `color`, `backgroundColor`, `bold`, `fontWeight`). -/
structure StyleSet where
  color : Option String := none
  backgroundColor : Option String := none
  bold : Option Bool := none
  fontWeight : Option String := none
deriving DecidableEq

/-- `ConditionalStyleRule` of the source; `value` is `number | string` there
and always a number when produced by `parseColumnDirective`. -/
structure ConditionalStyleRule where
  operator : CmpOp
  value : JVal
  styles : StyleSet
deriving DecidableEq

/-- `RowStyleRule` of the source (`value : number | string`; the `undefined`
that an empty quoted literal produces is also representable). -/
structure RowStyleRule where
  columnName : String
  operator : CmpOp
  value : JVal
  styles : StyleSet
deriving DecidableEq

/-- Enum of `ColumnDisplayOptions.type`. -/
inductive ColType where
  | int | float | decimal | text
deriving DecidableEq

/-- Enum of `ColumnDisplayOptions.align`. -/
inductive Align where
  | left | center | right
deriving DecidableEq

/-- The string of an `Align` value, as interpolated into `text-align: ...`. -/
def alignStr : Align → String
  | .left => "left"
  | .center => "center"
  | .right => "right"

/-- Enum of `ColumnDisplayOptions.format`. -/
inductive Fmt where
  | number | datetime | text
deriving DecidableEq

/-- `ColumnDisplayOptions` of the source.  `decimal` stores the result of
`parseInt(value, 10)`; the source can store `NaN` there, which this model
conflates with the field being unset (no claim distinguishes the two). -/
structure ColumnDisplayOptions where
  columnName : String
  type : Option ColType := none
  align : Option Align := none
  format : Option Fmt := none
  comma : Option Bool := none
  decimal : Option ℤ := none
  pattern : Option String := none
  width : Option String := none
  backgroundColor : Option String := none
  color : Option String := none
  fontWeight : Option String := none
  conditionalStyles : Option (List ConditionalStyleRule) := none
deriving DecidableEq

/-- Enum of `ChartDisplayOptions.type`. -/
inductive ChartType where
  | line | bar | pie | area | scatter
deriving DecidableEq

/-- Enum of `ChartDisplayOptions.curve`. -/
inductive Curve where
  | smooth | straight
deriving DecidableEq

/-- `ChartDisplayOptions` of the source, as returned by
`parseChartDirective` on success. -/
structure ChartDisplayOptions where
  type : ChartType
  xAxis : String
  yAxis : List String
  title : Option String
  showLegend : Bool
  showGrid : Bool
  stacked : Bool
  curve : Curve
deriving DecidableEq

/-- The local mutable state of `parseChartDirective` before the final
x/y-presence check (`xAxis` starts as the empty string and can become
`undefined` through `x=""`, hence `Option String`). -/
structure ChartState where
  ctype : ChartType
  x : Option String
  y : List String
  title : Option String
  legend : Bool
  grid : Bool
  stk : Bool
  curve : Curve
deriving DecidableEq

/-- Initial chart parse state (the `let` defaults of `parseChartDirective`). -/
def initChartState : ChartState :=
  { ctype := .line, x := some "", y := [], title := none,
    legend := true, grid := true, stk := false, curve := .smooth }

/-- `QueryDisplayOptions` of the source; the `Map` is modelled as an
association list with JS-`Map.set` update semantics. -/
structure QueryDisplayOptions where
  columns : List (String × ColumnDisplayOptions)
  rowStyles : List RowStyleRule
  chart : Option ChartDisplayOptions
deriving DecidableEq

/-- JS `Map.prototype.set`: replace in place if the key exists, else append. -/
def mapSet (m : List (String × ColumnDisplayOptions)) (k : String)
    (v : ColumnDisplayOptions) : List (String × ColumnDisplayOptions) :=
  if m.any (fun p => p.1 = k) then
    m.map (fun p => if p.1 = k then (k, v) else p)
  else m ++ [(k, v)]

/-- Splits `s` at the first occurrence of `pat`, returning the part before
the match and the part after it (the semantics of a leftmost regex literal
match, of JS `String.prototype.replace` with a string pattern, and of the
lazy `[\s\S]*?` comment body). -/
def splitFirst (pat : List Char) : List Char → Option (List Char × List Char)
  | [] => if pat = [] then some ([], []) else none
  | c :: t =>
    if pat.isPrefixOf (c :: t) then some ([], (c :: t).drop pat.length)
    else
      match splitFirst pat t with
      | some (a, b) => some (c :: a, b)
      | none => none

/-- JS `String.prototype.replace(pat, rep)` with a string pattern: only the
first occurrence is replaced. -/
def replaceFirstS (s pat rep : String) : String :=
  match splitFirst pat.toList s.toList with
  | none => s
  | some (a, b) => String.mk (a ++ rep.toList ++ b)

/-- JS `String.prototype.split(sep)` with a single-character separator. -/
def splitOnChar (sep : Char) : List Char → List (List Char)
  | [] => [[]]
  | c :: t =>
    if c = sep then [] :: splitOnChar sep t
    else
      match splitOnChar sep t with
      | [] => [[c]]
      | h :: r => (c :: h) :: r

/-- JS `String.prototype.trim`. -/
def trimL (l : List Char) : List Char :=
  ((l.dropWhile jsWs).reverse.dropWhile jsWs).reverse

/-- JS `trim` on strings. -/
def trimS (s : String) : String := String.mk (trimL s.toList)

/-- Extraction of the leading block comment: the regex
`\/\*\*([\s\S]*?)\*\//` — first `/**`, then the shortest body up to the
first following `*/`. -/
def extractComment (s : List Char) : Option (List Char) :=
  match splitFirst "/**".toList s with
  | none => none
  | some (_, rest) =>
    match splitFirst "*/".toList rest with
    | none => none
    | some (content, _) => some content

/-- One attempted match of `<tag>\s+([^\n]+)` at the head of `s`: returns
the full matched text (which is what the source passes on to the directive
parsers) and the remainder of `s` after the match.  The `else` branch
reproduces the regex backtracking when the maximal `\s+` run reaches the end
of the input: `\s+` gives characters back (from the right, greedily) until
`[^\n]+` can take at least one non-newline character. -/
def tryTagAt (tag : List Char) (s : List Char) : Option (List Char × List Char) :=
  if tag.isPrefixOf s then
    let u := s.drop tag.length
    let W := u.takeWhile jsWs
    let r := u.dropWhile jsWs
    if W = [] then none
    else if r ≠ [] then
      let L := r.takeWhile (fun c => c ≠ '\n')
      some (tag ++ W ++ L, r.drop L.length)
    else
      -- `\s+` reached the end of the input; it backtracks to the largest
      -- split point j ≥ 1 with W[j] ≠ '\n' (everything past j is then
      -- newlines, so `[^\n]+` captures exactly the one character W[j])
      let p := (W.drop 1).reverse.dropWhile (fun c => c = '\n')
      if p = [] then none
      else some (tag ++ W.take (p.length + 1), W.drop (p.length + 1))
  else none

/-- Global scan for `<tag>\s+([^\n]+)` (JS `String.prototype.match` with the
`g` flag): leftmost matches, resuming after each match.  The fuel argument
is a Lean totality artifact; it is initialized to more steps than the scan
can take, so the semantics are exact. -/
def tagScanGo (tag : List Char) : ℕ → List Char → List (List Char)
  | 0, _ => []
  | _ + 1, [] => []
  | fuel + 1, c :: t =>
    match tryTagAt tag (c :: t) with
    | some (m0, rest) => m0 :: tagScanGo tag fuel rest
    | none => tagScanGo tag fuel t

/-- All matches of `<tag>\s+([^\n]+)` in `content` (full match texts). -/
def tagScan (tag : List Char) (content : List Char) : List (List Char) :=
  tagScanGo tag (content.length + 1) content

/-- First match of `<tag>\s+([^\n]+)` in `content`, or `none`. -/
def firstTag (tag : List Char) : List Char → Option (List Char)
  | [] => none
  | c :: t =>
    match tryTagAt tag (c :: t) with
    | some (m0, _) => some m0
    | none => firstTag tag t

/-- The value group of the clause regex
`(\w+)=("([^"]*)"|'([^']*)'|([^\s]+))`, attempted at the head of `u`:
double-quoted (closing quote required), single-quoted, or a bare non-space
run, tried in that order.  Returns the clause value as the source computes
it — `optionMatch[3] || optionMatch[4] || optionMatch[5]`, so an empty
quoted value falls through to `undefined` (`none`) — plus the remainder
after the match. -/
def parseKvValue (u : List Char) : Option (Option String × List Char) :=
  let bare : Option (Option String × List Char) :=
    let b := u.takeWhile (fun c => !(jsWs c))
    if b = [] then none else some (some (String.mk b), u.drop b.length)
  match u with
  | [] => none
  | c :: t =>
    if c = dqChar then
      match splitFirst [dqChar] t with
      | some (content, rest) =>
        some (if content = [] then none else some (String.mk content), rest)
      | none => bare
    else if c = sqChar then
      match splitFirst [sqChar] t with
      | some (content, rest) =>
        some (if content = [] then none else some (String.mk content), rest)
      | none => bare
    else bare

/-- One attempted match of `(\w+)=(...)` at the head of `s`: a maximal
`\w+` run, a literal `=`, then the value alternation. -/
def tryKvAt (s : List Char) : Option ((String × Option String) × List Char) :=
  let w := s.takeWhile isWordChar
  if w = [] then none
  else
    match s.dropWhile isWordChar with
    | '=' :: u =>
      match parseKvValue u with
      | some (v, rest) => some ((String.mk w, v), rest)
      | none => none
    | _ => none

/-- Global scan with `(\w+)=("([^"]*)"|'([^']*)'|([^\s]+))` (the `matchAll`
of `parseColumnDirective` and `parseChartDirective`), in source order.
Fuel is a totality artifact, initialized so the semantics are exact. -/
def kvScanGo : ℕ → List Char → List (String × Option String)
  | 0, _ => []
  | _ + 1, [] => []
  | fuel + 1, c :: t =>
    match tryKvAt (c :: t) with
    | some (kv, rest) => kv :: kvScanGo fuel rest
    | none => kvScanGo fuel t

/-- All `key=value` clauses of a directive remainder. -/
def scanOptions (l : List Char) : List (String × Option String) :=
  kvScanGo (l.length + 1) l

/-- The numeric-literal-followed-by-colon fragment `(-?\d+(?:\.\d+)?):` of
the conditional and row regexes, with its backtracking: optional sign, a
maximal digit run, then either `:` directly, or `.`, a maximal digit run
and `:`.  (Shrinking a greedy digit run can never expose a `:`, so this is
the full backtracking behaviour.)  Returns the literal token text and the
remainder after the colon. -/
def scanNumColon (u : List Char) : Option (List Char × List Char) :=
  let sgn : List Char := if u.head? = some '-' then ['-'] else []
  let u1 : List Char := if u.head? = some '-' then u.tail else u
  let D := u1.takeWhile Char.isDigit
  let r1 := u1.dropWhile Char.isDigit
  if D = [] then none
  else if r1.head? = some ':' then some (sgn ++ D, r1.tail)
  else if r1.head? = some '.' then
    let F := r1.tail.takeWhile Char.isDigit
    let r2 := r1.tail.dropWhile Char.isDigit
    if F = [] then none
    else if r2.head? = some ':' then some (sgn ++ D ++ '.' :: F, r2.tail)
    else none
  else none

/-- The capture groups of one match of the conditional-clause regex
`if([<>!=]+)(-?\d+(?:\.\d+)?):([^\s]+)`. -/
structure CondMatch where
  ops : String
  numTok : String
  styleStr : String
deriving DecidableEq

/-- One attempted match of the conditional-clause regex at the head of `s`. -/
def tryCondAt (s : List Char) : Option (CondMatch × List Char) :=
  if ("if".toList).isPrefixOf s then
    let u := s.drop 2
    let ops := u.takeWhile isOpChar
    if ops = [] then none
    else
      match scanNumColon (u.dropWhile isOpChar) with
      | none => none
      | some (tok, afterColon) =>
        let sty := afterColon.takeWhile (fun c => !(jsWs c))
        if sty = [] then none
        else some (⟨String.mk ops, String.mk tok, String.mk sty⟩,
                   afterColon.drop sty.length)
  else none

/-- Global scan with the conditional-clause regex (the second `matchAll` of
`parseColumnDirective`).  Fuel is a totality artifact. -/
def condScanGo : ℕ → List Char → List CondMatch
  | 0, _ => []
  | _ + 1, [] => []
  | fuel + 1, c :: t =>
    match tryCondAt (c :: t) with
    | some (m, rest) => m :: condScanGo fuel rest
    | none => condScanGo fuel t

/-- All conditional clauses of a `@column` directive remainder. -/
def scanCond (l : List Char) : List CondMatch :=
  condScanGo (l.length + 1) l

/-- The literal alternation of the `@row` regex:
`("([^"]*)"|'([^']*)'|(-?\d+(?:\.\d+)?))` followed by `:`. -/
inductive RowLit where
  | dq (s : List Char)
  | sq (s : List Char)
  | num (tok : List Char)
deriving DecidableEq

/-- Attempts the literal alternation plus the following `:` at the head of
`u`; returns the literal and the remainder after the colon.  The
alternatives are tried in source order; a quoted alternative that matches
the opening quote but fails later cannot be rescued by the others (they
cannot start with a quote), matching the regex engine. -/
def rowLitScan (u : List Char) : Option (RowLit × List Char) :=
  match u with
  | [] => none
  | c :: t =>
    if c = dqChar then
      match splitFirst [dqChar] t with
      | some (content, r) =>
        match r with
        | ':' :: r2 => some (.dq content, r2)
        | _ => none
      | none => none
    else if c = sqChar then
      match splitFirst [sqChar] t with
      | some (content, r) =>
        match r with
        | ':' :: r2 => some (.sq content, r2)
        | _ => none
      | none => none
    else
      match scanNumColon u with
      | some (tok, r2) => some (.num tok, r2)
      | none => none

/-- The capture groups of one match of the `@row` regex
`@row\s+(\S+?)([<>!=]+)("([^"]*)"|'([^']*)'|(-?\d+(?:\.\d+)?)):(.+)`. -/
structure RowMatch where
  name : List Char
  ops : List Char
  lit : RowLit
  styleStr : List Char
deriving DecidableEq

/-- The part of the `@row` regex after the lazy column name:
`([<>!=]+)` (maximal; shrinking cannot help because no literal alternative
starts with an operator character), the literal, `:`, and `(.+)` (at least
one non-newline character, maximal). -/
def rowAfterName (u : List Char) : Option (List Char × RowLit × List Char) :=
  let ops := u.takeWhile isOpChar
  if ops = [] then none
  else
    match rowLitScan (u.dropWhile isOpChar) with
    | none => none
    | some (lit, afterColon) =>
      let sty := afterColon.takeWhile (fun c => c ≠ '\n')
      if sty = [] then none else some (ops, lit, sty)

/-- The lazy `(\S+?)` of the `@row` regex: the name grows one character at
a time (shortest first), never across whitespace, retrying the rest of the
pattern after each extension. -/
def growName (acc : List Char) : List Char → Option RowMatch
  | [] =>
    (match rowAfterName [] with
     | some (ops, lit, sty) => some ⟨acc, ops, lit, sty⟩
     | none => none)
  | c :: t =>
    (match rowAfterName (c :: t) with
     | some (ops, lit, sty) => some ⟨acc, ops, lit, sty⟩
     | none => if jsWs c then none else growName (acc ++ [c]) t)

/-- One attempted match of the `@row` regex at the head of `s`. -/
def tryRowAt (s : List Char) : Option RowMatch :=
  if ("@row".toList).isPrefixOf s then
    let u := s.drop 4
    let W := u.takeWhile jsWs
    if W = [] then none
    else
      match u.dropWhile jsWs with
      | [] => none
      | c :: t => growName [c] t
  else none

/-- Leftmost match of the `@row` regex (JS `String.prototype.match` without
the `g` flag): attempts at every position. -/
def goRow : List Char → Option RowMatch
  | [] => none
  | c :: t =>
    match tryRowAt (c :: t) with
    | some m => some m
    | none => goRow t

/-- One attempted match of the `@column` regex `@column\s+(\S+)\s+(.*)` at
the head of `s`: whitespace, a maximal non-space name, at least one more
whitespace character, then the rest of the line (possibly empty).  Returns
the captured name and remainder text. -/
def tryColumnAt (s : List Char) : Option (List Char × List Char) :=
  if ("@column".toList).isPrefixOf s then
    let u := s.drop 7
    let W := u.takeWhile jsWs
    let r := u.dropWhile jsWs
    if W = [] then none
    else
      let nm := r.takeWhile (fun c => !(jsWs c))
      let rest := r.dropWhile (fun c => !(jsWs c))
      if nm = [] then none
      else
        match rest with
        | [] => none
        | _ :: _ => some (nm, (rest.dropWhile jsWs).takeWhile (fun c => c ≠ '\n'))
  else none

/-- Leftmost match of the `@column` regex. -/
def goColumn : List Char → Option (List Char × List Char)
  | [] => none
  | c :: t =>
    match tryColumnAt (c :: t) with
    | some r => some r
    | none => goColumn t

/-- One attempted match of the `@chart` regex `@chart\s+(.*)` at the head
of `s`. -/
def tryChartAt (s : List Char) : Option (List Char) :=
  if ("@chart".toList).isPrefixOf s then
    let u := s.drop 6
    let W := u.takeWhile jsWs
    if W = [] then none
    else some ((u.dropWhile jsWs).takeWhile (fun c => c ≠ '\n'))
  else none

/-- Leftmost match of the `@chart` regex. -/
def goChart : List Char → Option (List Char)
  | [] => none
  | c :: t =>
    match tryChartAt (c :: t) with
    | some r => some r
    | none => goChart t

/-- One `key=value` token of a style clause: JS `split('=')` on the token
(optionally trimmed first, as `parseRowDirective` does), destructured into
the first two parts; a falsy key or value (`undefined` or `""`) skips the
token. -/
def applyStylePart (doTrim : Bool) (st : StyleSet) (part : List Char) : StyleSet :=
  let p := if doTrim then trimL part else part
  match splitOnChar '=' p with
  | styleKey :: styleValue :: _ =>
    if styleKey = [] ∨ styleValue = [] then st
    else
      let k := String.mk styleKey
      let v := String.mk styleValue
      if k = "color" then { st with color := some v }
      else if k = "bg" ∨ k = "backgroundColor" then { st with backgroundColor := some v }
      else if k = "bold" then
        (if v = "true" then { st with bold := some true, fontWeight := some "bold" } else st)
      else if k = "fontWeight" then { st with fontWeight := some v }
      else st
  | _ => st

/-- The style clause of a conditional or row rule: comma-split, each token
processed in order (`parseColumnDirective` does not trim the tokens,
`parseRowDirective` does). -/
def parseStyleStr (doTrim : Bool) (styleStr : String) : StyleSet :=
  (splitOnChar ',' styleStr.toList).foldl (applyStylePart doTrim) {}

/-- One conditional-clause match turned into a `ConditionalStyleRule`
(`parseColumnDirective` lines 246–302): an operator run that does not
normalize to one of the six operators skips the clause; the numeric token
always parses, `0` is an unreachable placeholder for `parseFloat` failure. -/
def condRuleOfMatch (m : CondMatch) : Option ConditionalStyleRule :=
  match normalizeOp m.ops with
  | none => none
  | some op =>
    some { operator := op,
           value := .num ((parseFloatJS m.numTok).getD 0),
           styles := parseStyleStr false m.styleStr }

/-- The conditional rules of a `@column` directive, in source order. -/
def parseCondRules (ms : List CondMatch) : List ConditionalStyleRule :=
  ms.filterMap condRuleOfMatch

/-- The `key=value` switch of `parseColumnDirective` (lines 199–242). -/
def applyColumnClause (o : ColumnDisplayOptions) (kv : String × Option String) :
    ColumnDisplayOptions :=
  let k := kv.1
  let v := kv.2
  if k = "type" then
    (if v = some "int" then { o with type := some .int }
     else if v = some "float" then { o with type := some .float }
     else if v = some "decimal" then { o with type := some .decimal }
     else if v = some "text" then { o with type := some .text }
     else o)
  else if k = "align" then
    (if v = some "left" then { o with align := some .left }
     else if v = some "center" then { o with align := some .center }
     else if v = some "right" then { o with align := some .right }
     else o)
  else if k = "format" then
    (if v = some "number" then { o with format := some .number }
     else if v = some "datetime" then { o with format := some .datetime }
     else if v = some "text" then { o with format := some .text }
     else o)
  else if k = "comma" then { o with comma := some (jsEqTrue v) }
  else if k = "decimal" then { o with decimal := parseIntJS v }
  else if k = "pattern" then { o with pattern := v }
  else if k = "width" then { o with width := v }
  else if k = "bg" ∨ k = "backgroundColor" then { o with backgroundColor := v }
  else if k = "color" then { o with color := v }
  else if k = "bold" then
    (if jsEqTrue v then { o with fontWeight := some "bold" } else o)
  else o

/-- `SqlCommentParser.parseColumnDirective`: regex match, `key=value`
clause loop, conditional-clause loop. -/
def parseColumnDirective (directive : String) : Option ColumnDisplayOptions :=
  match goColumn directive.toList with
  | none => none
  | some (nameL, optsL) =>
    let base : ColumnDisplayOptions := { columnName := String.mk nameL }
    let afterKv := (scanOptions optsL).foldl applyColumnClause base
    let rules := parseCondRules (scanCond optsL)
    if rules = [] then some afterKv
    else some { afterKv with conditionalStyles := some rules }

/-- `SqlCommentParser.parseRowDirective`: regex match, operator
normalization (an invalid operator run makes the whole directive `null`),
quoted-vs-numeric value typing, style clause parsing (with per-token
trim). -/
def parseRowDirective (directive : String) : Option RowStyleRule :=
  match goRow directive.toList with
  | none => none
  | some m =>
    match normalizeOp (String.mk m.ops) with
    | none => none
    | some op =>
      let m4 : Option String := match m.lit with | .dq s => some (String.mk s) | _ => none
      let m5 : Option String := match m.lit with | .sq s => some (String.mk s) | _ => none
      let m6 : Option String := match m.lit with | .num tok => some (String.mk tok) | _ => none
      let rawValue := jsOrS m4 (jsOrS m5 m6)
      let value : JVal :=
        if truthyS m4 ∨ truthyS m5 then .str (rawValue.getD "")
        else
          match rawValue with
          | none => .jundefined
          | some t =>
            match parseFloatJS t with
            | none => .str t
            | some q => .num q
      some { columnName := String.mk m.name, operator := op, value := value,
             styles := parseStyleStr true (String.mk m.styleStr) }

/-- The `key=value` switch of `parseChartDirective` (lines 423–466); the
`y`/`yAxis` case calls `value.split(',')`, which throws a `TypeError` when
the clause value is `undefined` (empty quoted value), modelled as
`Except.error`. -/
def applyChartClause (st : ChartState) (kv : String × Option String) :
    Except Unit ChartState :=
  let k := kv.1
  let v := kv.2
  if k = "type" then
    .ok (if v = some "line" then { st with ctype := .line }
         else if v = some "bar" then { st with ctype := .bar }
         else if v = some "pie" then { st with ctype := .pie }
         else if v = some "area" then { st with ctype := .area }
         else if v = some "scatter" then { st with ctype := .scatter }
         else st)
  else if k = "x" ∨ k = "xAxis" then .ok { st with x := v }
  else if k = "y" ∨ k = "yAxis" then
    match v with
    | none => .error ()
    | some s =>
      let ys := ((splitOnChar ',' s.toList).map (fun e => String.mk (trimL e))).filter (fun e => e.length > 0)
      .ok { st with y := ys }
  else if k = "title" then .ok { st with title := v }
  else if k = "legend" ∨ k = "showLegend" then .ok { st with legend := jsEqTrue v }
  else if k = "grid" ∨ k = "showGrid" then .ok { st with grid := jsEqTrue v }
  else if k = "stacked" then .ok { st with stk := jsEqTrue v }
  else if k = "curve" then
    .ok (if v = some "smooth" then { st with curve := .smooth }
         else if v = some "straight" then { st with curve := .straight }
         else st)
  else .ok st

/-- The clause loop of `parseChartDirective`. -/
def chartFold (cl : List (String × Option String)) : Except Unit ChartState :=
  cl.foldlM applyChartClause initChartState

/-- The final x/y-presence check and record construction of
`parseChartDirective` (`if (!xAxis || yAxis.length === 0) return null`). -/
def finalizeChart (st : ChartState) : Option ChartDisplayOptions :=
  if st.x = none ∨ st.x = some "" ∨ st.y = [] then none
  else some { type := st.ctype, xAxis := st.x.getD "", yAxis := st.y,
              title := st.title, showLegend := st.legend, showGrid := st.grid,
              stacked := st.stk, curve := st.curve }

/-- Clause scan plus fold plus finalization of `parseChartDirective`. -/
def chartBuild (cl : List (String × Option String)) :
    Except Unit (Option ChartDisplayOptions) :=
  match chartFold cl with
  | .error e => .error e
  | .ok st => .ok (finalizeChart st)

/-- `SqlCommentParser.parseChartDirective`. -/
def parseChartDirective (directive : String) :
    Except Unit (Option ChartDisplayOptions) :=
  match goChart directive.toList with
  | none => .ok none
  | some optsL => chartBuild (scanOptions optsL)

/-- `SqlCommentParser.parseOptions`: comment extraction, `@column` loop
into the map, `@row` loop into the ordered list, first `@chart`. -/
def parseOptions (sql : String) : Except Unit QueryDisplayOptions :=
  match extractComment sql.toList with
  | none => .ok { columns := [], rowStyles := [], chart := none }
  | some content =>
    let cols := (tagScan "@column".toList content).foldl
      (fun m d =>
        match parseColumnDirective (String.mk d) with
        | some o => mapSet m o.columnName o
        | none => m) []
    let rows := (tagScan "@row".toList content).foldl
      (fun rs d =>
        match parseRowDirective (String.mk d) with
        | some r => rs ++ [r]
        | none => rs) []
    match firstTag "@chart".toList content with
    | none => .ok { columns := cols, rowStyles := rows, chart := none }
    | some d =>
      match parseChartDirective (String.mk d) with
      | .error e => .error e
      | .ok c => .ok { columns := cols, rowStyles := rows, chart := c }

/-- The declarations a matching rule pushes in `generateConditionalStyle` /
`generateRowStyle`: `color`, `background-color`, `font-weight`, in that
order (the `bold` flag itself is never emitted, only `fontWeight`). -/
def styleDecls (st : StyleSet) : List String :=
  (match st.color with
   | some c => ["color: " ++ c]
   | none => []) ++
  (match st.backgroundColor with
   | some b => ["background-color: " ++ b]
   | none => []) ++
  (match st.fontWeight with
   | some f => ["font-weight: " ++ f]
   | none => [])

/-- The `text-align` declaration pushed first by
`generateConditionalStyle`. -/
def alignDecls (o : ColumnDisplayOptions) : List String :=
  match o.align with
  | some a => ["text-align: " ++ alignStr a]
  | none => []

/-- The static declarations of the no-conditional-styles branch of
`generateConditionalStyle`: `background-color`, `color`, `font-weight`,
in that order. -/
def staticDecls (o : ColumnDisplayOptions) : List String :=
  (match o.backgroundColor with
   | some b => ["background-color: " ++ b]
   | none => []) ++
  (match o.color with
   | some c => ["color: " ++ c]
   | none => []) ++
  (match o.fontWeight with
   | some f => ["font-weight: " ++ f]
   | none => [])

/-- Whether a conditional rule matches the numeric cell value `q`
(rules whose `value` is not a number are skipped). -/
def condRuleMatches (q : JNum) (r : ConditionalStyleRule) : Bool :=
  match r.value with
  | .num rv => evalCmp r.operator q rv
  | _ => false

/-- The declarations pushed by the rule loop of
`generateConditionalStyle`. -/
def condDecls (q : JNum) (rules : List ConditionalStyleRule) : List String :=
  rules.flatMap (fun r => if condRuleMatches q r then styleDecls r.styles else [])

/-- The `styles` list of `SqlCommentParser.generateConditionalStyle`
(before the final `join('; ')`): `text-align` first, then either the
conditional evaluation (only when the value parses as a number) or the
static declarations. -/
def genCondStyleList (value : JVal) (options : ColumnDisplayOptions) : List String :=
  let base := alignDecls options
  match options.conditionalStyles with
  | some (r :: rs) =>
    (match numValueOf value with
     | none => base
     | some q => base ++ condDecls q (r :: rs))
  | _ => base ++ staticDecls options

/-- `SqlCommentParser.generateConditionalStyle` (the joined CSS string). -/
def generateConditionalStyle (value : JVal) (options : ColumnDisplayOptions) : String :=
  String.intercalate "; " (genCondStyleList value options)

/-- JS `rowData[columnName]` on the row object: `undefined` when absent. -/
def getCell (rowData : List (String × JVal)) (columnName : String) : JVal :=
  match rowData.find? (fun p => p.1 = columnName) with
  | some p => p.2
  | none => .jundefined

/-- The declarations one row rule contributes in `generateRowStyle`:
null/undefined cells are skipped; a numeric rule value compares numerically
(a `NaN` cell parse means no match), any other rule value compares the
string forms. -/
def perRowRule (rowData : List (String × JVal)) (rule : RowStyleRule) : List String :=
  let cellValue := getCell rowData rule.columnName
  if cellValue = .null ∨ cellValue = .jundefined then []
  else
    let met :=
      match rule.value with
      | .num rv =>
        (match numValueOf cellValue with
         | none => false
         | some q => evalCmp rule.operator q rv)
      | rv => evalCmpStr rule.operator (strOfJVal cellValue) (strOfJVal rv)
    if met then styleDecls rule.styles else []

/-- The `styles` list of `SqlCommentParser.generateRowStyle` (before the
final `join('; ')`): every rule evaluated in order, matches appended. -/
def genRowStyleList (rowData : List (String × JVal)) (rules : List RowStyleRule) :
    List String :=
  rules.flatMap (perRowRule rowData)

/-- `SqlCommentParser.generateRowStyle` (the joined CSS string). -/
def generateRowStyle (rowData : List (String × JVal)) (rules : List RowStyleRule) : String :=
  String.intercalate "; " (genRowStyleList rowData rules)

/-- `String.prototype.padStart(2, '0')` on a character list. -/
def padZero2L (l : List Char) : List Char :=
  if l.length < 2 then List.replicate (2 - l.length) '0' ++ l else l

/-- `String(x).padStart(2, '0')` for a natural number. -/
def pad2 (n : ℕ) : String := String.mk (padZero2L (natDigits n))

/-- The local-time components `SqlCommentParser.formatDateTime` reads from
a `Date`: `getFullYear`, `getMonth` (0-based!), `getDate`, `getHours`,
`getMinutes`, `getSeconds`. -/
structure DateParts where
  year : ℕ
  month : ℕ
  day : ℕ
  hours : ℕ
  minutes : ℕ
  seconds : ℕ
deriving DecidableEq

/-- `SqlCommentParser.formatDateTime`: sequential first-occurrence
replacement of `yyyy`, `MM`, `dd`, `HH`, `mm`, `ss`, in that order. -/
def formatDateTime (date : DateParts) (pattern : String) : String :=
  let year := natStr date.year
  let month := pad2 (date.month + 1)
  let day := pad2 date.day
  let hours := pad2 date.hours
  let minutes := pad2 date.minutes
  let seconds := pad2 date.seconds
  replaceFirstS (replaceFirstS (replaceFirstS (replaceFirstS (replaceFirstS
    (replaceFirstS pattern "yyyy" year) "MM" month) "dd" day) "HH" hours)
    "mm" minutes) "ss" seconds

/-- `Number.prototype.toFixed(d)` on an exact rational: per the ECMAScript
algorithm, the integer `n` with `n / 10^d` closest to the value, ties to
the larger `n`.  A negative `d` (for which JS throws a `RangeError`, a case
no claim reaches) is clamped to 0. -/
def toFixedQ (q : JNum) (d : ℤ) : String :=
  let dn := d.toNat
  let n : ℤ := ((q.mul (JNum.ofNat (10 ^ dn))).add ⟨1, 2⟩).floorz
  let sgn : List Char := if n < 0 then ['-'] else []
  let ds := natDigits n.natAbs
  let ds := if ds.length < dn + 1 then List.replicate (dn + 1 - ds.length) '0' ++ ds else ds
  if dn = 0 then String.mk (sgn ++ ds)
  else String.mk (sgn ++ ds.take (ds.length - dn) ++ '.' :: ds.drop (ds.length - dn))

/-- The lookahead `(?=(\d{3})+(?!\d))` of the grouping regex: the digit run
starting here is non-empty and a multiple of three long. -/
def lookAhead3 (u : List Char) : Bool :=
  let d := (u.takeWhile Char.isDigit).length
  d ≠ 0 && d % 3 = 0

/-- Walk of `replace(/\B(?=(\d{3})+(?!\d))/g, ',')`: before each character,
a comma is inserted when the gap is a `\B` (both sides word characters, or
both sides non-word, string ends counting as non-word) and the lookahead
holds. -/
def groupGo (p : Option Char) : List Char → List Char
  | [] => []
  | c :: t =>
    let leftWord := match p with | some pc => isWordChar pc | none => false
    if (leftWord = isWordChar c) && lookAhead3 (c :: t)
    then ',' :: c :: groupGo (some c) t
    else c :: groupGo (some c) t

/-- `parts[0].replace(/\B(?=(\d{3})+(?!\d))/g, ',')`: thousands grouping of
the integer part. -/
def groupThousandsL (l : List Char) : List Char := groupGo none l

/-- Concatenation with a separator (JS `Array.prototype.join`). -/
def joinL (sep : List Char) : List (List Char) → List Char
  | [] => []
  | [x] => x
  | x :: y :: r => x ++ sep ++ joinL sep (y :: r)

/-- The comma-insertion step of `formatValue`: split on `.`, group the
integer part, rejoin with `.`. -/
def commaizeL (l : List Char) : List Char :=
  match splitOnChar '.' l with
  | [] => []
  | h :: t => joinL ['.'] (groupThousandsL h :: t)

/-- `SqlCommentParser.formatValue`.  `dateParse` abstracts `new Date(s)`
(platform date parsing, not modelled; `none` = invalid date): the number
branch never consults it. -/
def formatValue (dateParse : String → Option DateParts) (value : JVal)
    (options : ColumnDisplayOptions) : String :=
  if value = .null ∨ value = .jundefined then ""
  else
    let strValue := strOfJVal value
    if options.format = some Fmt.number then
      match parseFloatJS strValue with
      | none => strValue
      | some num =>
        let f1 :=
          match options.decimal with
          | some d => toFixedQ num d
          | none => qToStr num
        if options.comma = some true then String.mk (commaizeL f1.toList) else f1
    else if options.format = some Fmt.datetime ∧ truthyS options.pattern then
      match options.pattern with
      | some pat =>
        (match dateParse strValue with
         | some date => formatDateTime date pat
         | none => strValue)
      | none => strValue
    else strValue

/-- A one-character string holding a double quote (used to build test
inputs without escape sequences). -/
def dqS : String := String.mk [dqChar]

theorem takeWhile_all {p : Char → Bool} {l : List Char}
    (h : ∀ c ∈ l, p c = true) : l.takeWhile p = l := by
  induction l with
  | nil => rfl
  | cons c t ih =>
    rw [List.takeWhile_cons, h c (by simp)]
    simp only [if_true]
    rw [ih (fun c hc => h c (by simp [hc]))]

theorem dropWhile_all {p : Char → Bool} {l : List Char}
    (h : ∀ c ∈ l, p c = true) : l.dropWhile p = [] := by
  induction l with
  | nil => rfl
  | cons c t ih =>
    rw [List.dropWhile_cons, h c (by simp)]
    simp only [if_true]
    exact ih (fun c hc => h c (by simp [hc]))

theorem takeWhile_append_all {p : Char → Bool} {a b : List Char}
    (h : ∀ c ∈ a, p c = true) :
    (a ++ b).takeWhile p = a ++ b.takeWhile p := by
  induction a with
  | nil => rfl
  | cons c t ih =>
    rw [List.cons_append, List.takeWhile_cons, h c (by simp)]
    simp only [if_true]
    rw [ih (fun c hc => h c (by simp [hc]))]
    simp

theorem dropWhile_append_all {p : Char → Bool} {a b : List Char}
    (h : ∀ c ∈ a, p c = true) :
    (a ++ b).dropWhile p = b.dropWhile p := by
  induction a with
  | nil => rfl
  | cons c t ih =>
    rw [List.cons_append, List.dropWhile_cons, h c (by simp)]
    simp only [if_true]
    exact ih (fun c hc => h c (by simp [hc]))

theorem isPrefixOf_cons_head {p0 c : Char} {pr t : List Char}
    (h : (p0 :: pr).isPrefixOf (c :: t) = true) : c = p0 := by
  simp only [List.isPrefixOf, Bool.and_eq_true, beq_iff_eq] at h
  exact h.1.symm

/-- If no character of `s` equals the head of the (nonempty) pattern, the
pattern does not occur in `s`. -/
theorem splitFirst_none_of_head {p0 : Char} {pr s : List Char}
    (h : ∀ c ∈ s, c ≠ p0) : splitFirst (p0 :: pr) s = none := by
  induction s with
  | nil => rfl
  | cons c t ih =>
    unfold splitFirst
    have hpre : (p0 :: pr).isPrefixOf (c :: t) = false := by
      cases hp : (p0 :: pr).isPrefixOf (c :: t) with
      | false => rfl
      | true => exact absurd (isPrefixOf_cons_head hp) (h c (by simp))
    rw [hpre]
    simp only [Bool.false_eq_true, if_false]
    rw [ih (fun c hc => h c (by simp [hc]))]

theorem replaceFirstS_of_none {s pat rep : String}
    (h : splitFirst pat.toList s.toList = none) : replaceFirstS s pat rep = s := by
  unfold replaceFirstS
  rw [h]

theorem digitChar_isDigit {m : ℕ} (h : m < 10) : (digitChar m).isDigit = true := by
  interval_cases m <;> decide

theorem natDigitsGo_digits : ∀ fuel n : ℕ, ∀ c ∈ natDigitsGo fuel n, c.isDigit = true := by
  intro fuel
  induction fuel with
  | zero => intro n c hc; simp [natDigitsGo] at hc
  | succ f ih =>
    intro n c hc
    rw [natDigitsGo] at hc
    by_cases h : n < 10
    · rw [if_pos h] at hc
      simp only [List.mem_singleton] at hc
      subst hc
      exact digitChar_isDigit h
    · rw [if_neg h] at hc
      rcases List.mem_append.mp hc with hc | hc
      · exact ih (n / 10) c hc
      · simp only [List.mem_singleton] at hc
        subst hc
        exact digitChar_isDigit (Nat.mod_lt n (by omega))

theorem natDigits_digits (n : ℕ) : ∀ c ∈ natDigits n, c.isDigit = true :=
  natDigitsGo_digits (n + 1) n

theorem isDigit_not_ws {c : Char} (h : c.isDigit = true) : jsWs c = false := by
  cases hw : jsWs c with
  | false => rfl
  | true =>
    exfalso
    simp only [jsWs, Bool.or_eq_true, decide_eq_true_eq] at hw
    rcases hw with ((((((hw | hw) | hw) | hw) | hw) | hw) | hw) | hw <;>
      (subst hw; simp [Char.isDigit] at h)

theorem digit_ne_of_not_digit {c d : Char} (h : c.isDigit = true)
    (hd : d.isDigit = false) : c ≠ d := by
  intro he
  subst he
  rw [h] at hd
  exact absurd hd (by simp)

theorem padZero2L_digits {l : List Char} (h : ∀ c ∈ l, c.isDigit = true) :
    ∀ c ∈ padZero2L l, c.isDigit = true := by
  intro c hc
  unfold padZero2L at hc
  by_cases hl : l.length < 2
  · simp only [hl, if_true, List.mem_append] at hc
    rcases hc with hc | hc
    · rw [List.eq_of_mem_replicate hc]
      decide
    · exact h c hc
  · simp only [hl, if_false] at hc
    exact h c hc

/-- C1: when a column has a non-empty `conditionalStyles` list and the cell
value does not parse as a float, `generateConditionalStyle` emits no color,
background-color or font-weight declarations at all — only the `text-align`
declaration from `align`, if any; the static backgroundColor/color/fontWeight
declarations are emitted only when `conditionalStyles` is empty or absent
(with a non-empty list the output is the alignment declaration plus the
matching rules' declarations, never the static ones). -/
theorem c1_conditional_replaces_static (v : JVal) (o : ColumnDisplayOptions) :
    (∀ l, o.conditionalStyles = some l → l ≠ [] → numValueOf v = none →
      genCondStyleList v o = alignDecls o) ∧
    ((o.conditionalStyles = none ∨ o.conditionalStyles = some []) →
      genCondStyleList v o = alignDecls o ++ staticDecls o) ∧
    (∀ r rs q, o.conditionalStyles = some (r :: rs) → numValueOf v = some q →
      genCondStyleList v o = alignDecls o ++ condDecls q (r :: rs)) := by
  refine ⟨?_, ?_, ?_⟩
  · intro l hl hne hnan
    cases l with
    | nil => exact absurd rfl hne
    | cons r rs =>
      unfold genCondStyleList
      rw [hl, hnan]
  · intro h
    rcases h with h | h <;> (unfold genCondStyleList; rw [h])
  · intro r rs q hl hq
    unfold genCondStyleList
    rw [hl, hq]

/-- Witness for C1 at concrete inputs: a right-aligned column with one
conditional rule and the non-numeric value "abc" yields only the alignment
declaration; the same value on a column with static styles and no
conditional rules yields alignment plus all three static declarations. -/
theorem c1_witness :
    genCondStyleList (.str "abc")
      { columnName := "p", align := some .right,
        conditionalStyles := some [⟨CmpOp.gt, .num 0, ⟨some "red", none, none, none⟩⟩] } =
      ["text-align: right"] ∧
    genCondStyleList (.str "abc")
      { columnName := "p", align := some .right, backgroundColor := some "pink",
        color := some "navy", fontWeight := some "bold" } =
      ["text-align: right", "background-color: pink", "color: navy", "font-weight: bold"] := by
  constructor
  · exact ((c1_conditional_replaces_static (.str "abc") _).1 _ rfl (by decide)
      (by decide)).trans (by decide)
  · exact ((c1_conditional_replaces_static (.str "abc") _).2.1 (Or.inl rfl)).trans (by decide)

/-- C4: two conditional rules that both match a numeric cell value both
contribute their declarations, the later rule's after the earlier rule's;
parsed from `if>0:color=blue if>0:color=green`, the value 5 produces the
declaration list `["color: blue", "color: green"]`. -/
theorem c4_later_rule_after_earlier (q : JNum) (r1 r2 : ConditionalStyleRule)
    (o : ColumnDisplayOptions) (h0 : o.conditionalStyles = some [r1, r2])
    (h1 : condRuleMatches q r1 = true) (h2 : condRuleMatches q r2 = true) :
    genCondStyleList (.num q) o =
      alignDecls o ++ (styleDecls r1.styles ++ styleDecls r2.styles) ∧
    (parseColumnDirective "@column price if>0:color=blue if>0:color=green").map
      (genCondStyleList (.num 5)) = some ["color: blue", "color: green"] := by
  constructor
  · unfold genCondStyleList
    rw [h0]
    show alignDecls o ++ condDecls q [r1, r2] = _
    unfold condDecls
    simp [h1, h2]
  · decide

/-- Witness for C4 at concrete inputs. -/
theorem c4_witness :
    genCondStyleList (.num 5)
      { columnName := "p",
        conditionalStyles := some [⟨CmpOp.gt, .num 0, ⟨some "blue", none, none, none⟩⟩,
                                   ⟨CmpOp.gt, .num 0, ⟨some "green", none, none, none⟩⟩] } =
      ["color: blue", "color: green"] := by
  exact ((c4_later_rule_after_earlier 5 _ _ _ rfl (by decide) (by decide)).1).trans (by decide)

/-- C6: a conditional clause whose operator run does not normalize to one of
the six operators is dropped, while the other clauses of the same line are
still parsed: `if<>5:color=red` is dropped but `if>0:bg=green` and
`width=10` (and the stray `key=value` tokens the clause scanner also sees
inside the conditional clauses) survive. -/
theorem c6_bad_operator_clause_dropped (ops tok sty : String) (rest : List CondMatch)
    (h : normalizeOp ops = none) :
    parseCondRules (⟨ops, tok, sty⟩ :: rest) = parseCondRules rest ∧
    (parseColumnDirective "@column price if<>5:color=red if>0:bg=green width=10").map
      (fun o => (o.conditionalStyles, o.width, o.backgroundColor, o.color)) =
      some (some [⟨CmpOp.gt, .num 0, ⟨none, some "green", none, none⟩⟩],
            some "10", some "green", some "red") := by
  constructor
  · unfold parseCondRules
    rw [List.filterMap_cons]
    have : condRuleOfMatch ⟨ops, tok, sty⟩ = none := by
      unfold condRuleOfMatch
      rw [h]
    rw [this]
  · decide

/-- Witness for C6 at a concrete malformed operator run. -/
theorem c6_witness :
    parseCondRules [⟨"<>", "5", "color=red"⟩,
                    ⟨">", "0", "bg=green"⟩] =
      [⟨CmpOp.gt, .num 0, ⟨none, some "green", none, none⟩⟩] := by
  exact ((c6_bad_operator_clause_dropped "<>" "5" "color=red" _ (by decide)).1).trans (by decide)

/-- C7: a numeric row rule whose target cell is non-null but does not parse
as a float contributes nothing and evaluation continues with the remaining
rules; `@row sales>1000000:bold=true` matches the cell 1500000 and does not
match the cell "abc". -/
theorem c7_nan_rule_skipped (rows : List (String × JVal)) (r : RowStyleRule)
    (rest : List RowStyleRule) (rv : JNum) (s : String) (h1 : r.value = .num rv)
    (h2 : getCell rows r.columnName = .str s) (h3 : parseFloatJS s = none) :
    genRowStyleList rows (r :: rest) = genRowStyleList rows rest ∧
    (parseRowDirective "@row sales>1000000:bold=true").map (fun ru =>
      (genRowStyleList [("sales", .num 1500000)] [ru],
       genRowStyleList [("sales", .str "abc")] [ru])) =
      some (["font-weight: bold"], []) := by
  constructor
  · unfold genRowStyleList
    rw [List.flatMap_cons]
    have : perRowRule rows r = [] := by
      unfold perRowRule
      rw [h2, h1]
      have hnum : numValueOf (.str s) = none := h3
      simp [hnum]
    rw [this, List.nil_append]
  · decide

/-- Witness for C7 at concrete inputs. -/
theorem c7_witness :
    genRowStyleList [("sales", .str "abc")]
      [⟨"sales", CmpOp.gt, .num 1000000, ⟨none, none, some true, some "bold"⟩⟩,
       ⟨"sales", CmpOp.eq, .str "abc", ⟨some "red", none, none, none⟩⟩] =
      ["color: red"] := by
  exact ((c7_nan_rule_skipped [("sales", .str "abc")] _ _ 1000000 "abc" rfl (by decide)
    (by decide)).1).trans (by decide)

/-- C9: the datetime formatter substitutes the tokens sequentially in the
fixed order `yyyy, MM, dd, HH, mm, ss`, replacing only the first occurrence
of each token: for every date, the pattern `MM.MM` keeps its second `MM`
literally (only the first is replaced by the padded month), and the full
pattern `yyyy/MM/dd HH:mm:ss` renders all six zero-padded local-time
components. -/
theorem c9_sequential_first_occurrence (d : DateParts) :
    formatDateTime d "MM.MM" =
      String.mk (padZero2L (natDigits (d.month + 1)) ++ ['.', 'M', 'M']) ∧
    formatDateTime ⟨2025, 11, 28, 14, 30, 45⟩ "yyyy/MM/dd HH:mm:ss" =
      "2025/12/28 14:30:45" := by
  constructor
  · have hP : ∀ c ∈ padZero2L (natDigits (d.month + 1)) ++ (['.', 'M', 'M'] : List Char),
        c.isDigit = true ∨ c = '.' ∨ c = 'M' := by
      intro c hc
      rcases List.mem_append.mp hc with hc | hc
      · exact Or.inl (padZero2L_digits (natDigits_digits _) c hc)
      · right
        have hc2 : c = '.' ∨ c = 'M' ∨ c = 'M' := by simpa using hc
        rcases hc2 with h | h | h
        · exact Or.inl h
        · exact Or.inr h
        · exact Or.inr h
    have hnone : ∀ (p0 : Char) (pr : List Char), p0.isDigit = false → p0 ≠ '.' → p0 ≠ 'M' →
        splitFirst (p0 :: pr)
          (padZero2L (natDigits (d.month + 1)) ++ ['.', 'M', 'M']) = none := by
      intro p0 pr h1 h2 h3
      apply splitFirst_none_of_head
      intro c hc
      rcases hP c hc with hd | hd | hd
      · exact digit_ne_of_not_digit hd h1
      · rw [hd]; exact Ne.symm h2
      · rw [hd]; exact Ne.symm h3
    have step1 : replaceFirstS "MM.MM" "yyyy" (natStr d.year) = "MM.MM" :=
      replaceFirstS_of_none rfl
    have step2 : replaceFirstS "MM.MM" "MM" (pad2 (d.month + 1)) =
        String.mk (padZero2L (natDigits (d.month + 1)) ++ ['.', 'M', 'M']) := by
      unfold replaceFirstS
      rw [show splitFirst "MM".toList "MM.MM".toList = some ([], ['.', 'M', 'M']) from rfl]
      rfl
    have step3 : replaceFirstS
        (String.mk (padZero2L (natDigits (d.month + 1)) ++ ['.', 'M', 'M'])) "dd"
        (pad2 d.day) = String.mk (padZero2L (natDigits (d.month + 1)) ++ ['.', 'M', 'M']) :=
      replaceFirstS_of_none (hnone 'd' ['d'] (by decide) (by decide) (by decide))
    have step4 : replaceFirstS
        (String.mk (padZero2L (natDigits (d.month + 1)) ++ ['.', 'M', 'M'])) "HH"
        (pad2 d.hours) = String.mk (padZero2L (natDigits (d.month + 1)) ++ ['.', 'M', 'M']) :=
      replaceFirstS_of_none (hnone 'H' ['H'] (by decide) (by decide) (by decide))
    have step5 : replaceFirstS
        (String.mk (padZero2L (natDigits (d.month + 1)) ++ ['.', 'M', 'M'])) "mm"
        (pad2 d.minutes) = String.mk (padZero2L (natDigits (d.month + 1)) ++ ['.', 'M', 'M']) :=
      replaceFirstS_of_none (hnone 'm' ['m'] (by decide) (by decide) (by decide))
    have step6 : replaceFirstS
        (String.mk (padZero2L (natDigits (d.month + 1)) ++ ['.', 'M', 'M'])) "ss"
        (pad2 d.seconds) = String.mk (padZero2L (natDigits (d.month + 1)) ++ ['.', 'M', 'M']) :=
      replaceFirstS_of_none (hnone 's' ['s'] (by decide) (by decide) (by decide))
    show replaceFirstS (replaceFirstS (replaceFirstS (replaceFirstS (replaceFirstS
      (replaceFirstS "MM.MM" "yyyy" (natStr d.year)) "MM" (pad2 (d.month + 1)))
      "dd" (pad2 d.day)) "HH" (pad2 d.hours)) "mm" (pad2 d.minutes)) "ss" (pad2 d.seconds) = _
    rw [step1, step2, step3, step4, step5, step6]
  · decide

theorem splitOnChar_not_mem {sep : Char} {l : List Char} (h : sep ∉ l) :
    splitOnChar sep l = [l] := by
  induction l with
  | nil => rfl
  | cons c t ih =>
    unfold splitOnChar
    have hc : ¬(c = sep) := fun he => h (he ▸ List.mem_cons_self c t)
    rw [if_neg hc, ih (fun hm => h (List.mem_cons_of_mem c hm))]

theorem splitOnChar_append {sep : Char} {a b : List Char} (h : sep ∉ a) :
    splitOnChar sep (a ++ sep :: b) = a :: splitOnChar sep b := by
  induction a with
  | nil => simp [splitOnChar]
  | cons c t ih =>
    have hc : ¬(c = sep) := fun he => h (he ▸ List.mem_cons_self c t)
    have hrest : splitOnChar sep (t ++ sep :: b) = t :: splitOnChar sep b :=
      ih (fun hm => h (List.mem_cons_of_mem c hm))
    rw [List.cons_append, splitOnChar, if_neg hc, hrest]

/-- C8: `formatValue` on 1234567.891 with `format=number comma=true
decimal=2` returns exactly "1,234,567.89"; in general the comma step
splits the fixed-point rendering at the decimal point and inserts
thousands separators only into the integer part, leaving the fractional
part unchanged. -/
theorem c8_comma_groups_integer_part_only (dp : String → Option DateParts)
    (ip fp : List Char) (h1 : '.' ∉ ip) (h2 : '.' ∉ fp) :
    commaizeL (ip ++ '.' :: fp) = groupThousandsL ip ++ '.' :: fp ∧
    formatValue dp (.num (normQ 1234567891 1000))
      { columnName := "v", format := some .number, comma := some true,
        decimal := some 2 } = "1,234,567.89" := by
  constructor
  · unfold commaizeL
    rw [splitOnChar_append h1, splitOnChar_not_mem h2]
    simp [joinL]
  · rfl

/-- Witness for C8 at concrete inputs. -/
theorem c8_witness :
    commaizeL ("1234567.89".toList) = "1,234,567.89".toList ∧
    formatValue (fun _ => none) (.num (normQ 1234567891 1000))
      { columnName := "v", format := some .number, comma := some true,
        decimal := some 2 } = "1,234,567.89" := by
  have h := c8_comma_groups_integer_part_only (fun _ => none)
    "1234567".toList "89".toList (by decide) (by decide)
  exact ⟨(h.1).trans (by decide), h.2⟩

theorem parseFloatCore_some (neg : Bool) (D tail : List Char) (hD : D ≠ [])
    (hall : ∀ c ∈ D, c.isDigit = true)
    (htail : tail = [] ∨ ∃ F, tail = '.' :: F) :
    ∃ q, parseFloatCore neg (D ++ tail) = some q := by
  have htake := takeWhile_append_all (p := Char.isDigit) (b := tail) hall
  have hdrop := dropWhile_append_all (p := Char.isDigit) (b := tail) hall
  simp only [parseFloatCore]
  rw [htake, hdrop]
  rcases htail with rfl | ⟨F, rfl⟩
  · simp [hD]
  · simp [hD, List.takeWhile_cons, List.dropWhile_cons,
      show ('.').isDigit = false from by decide]

theorem parseFloatL_eq_core_pos {l : List Char} (hw : l.dropWhile jsWs = l)
    (h1 : l.head? ≠ some '-') (h2 : l.head? ≠ some '+') :
    parseFloatL l = parseFloatCore false l := by
  simp only [parseFloatL]
  rw [hw]
  simp [h1, h2]

theorem parseFloatL_eq_core_neg (l : List Char) :
    parseFloatL ('-' :: l) = parseFloatCore true l := by
  simp only [parseFloatL]
  rw [List.dropWhile_cons]
  simp [show jsWs '-' = false from by decide]

theorem parseFloatL_digit_run (D tail : List Char) (hD : D ≠ [])
    (hall : ∀ c ∈ D, c.isDigit = true)
    (htail : tail = [] ∨ ∃ F, tail = '.' :: F) :
    (∃ q, parseFloatL (D ++ tail) = some q) ∧
    (∃ q, parseFloatL ('-' :: (D ++ tail)) = some q) := by
  constructor
  · cases D with
    | nil => exact absurd rfl hD
    | cons d Dt =>
      have hd : d.isDigit = true := hall d (by simp)
      have hw : ((d :: Dt) ++ tail).dropWhile jsWs = (d :: Dt) ++ tail := by
        rw [List.cons_append, List.dropWhile_cons, isDigit_not_ws hd]
        simp
      have h1 : ((d :: Dt) ++ tail).head? ≠ some '-' := by
        simp [digit_ne_of_not_digit hd (show ('-').isDigit = false from by decide)]
      have h2 : ((d :: Dt) ++ tail).head? ≠ some '+' := by
        simp [digit_ne_of_not_digit hd (show ('+').isDigit = false from by decide)]
      rw [parseFloatL_eq_core_pos hw h1 h2]
      exact parseFloatCore_some false (d :: Dt) tail hD hall htail
  · rw [parseFloatL_eq_core_neg]
    exact parseFloatCore_some true D tail hD hall htail

/-- C2 (amended): a quoted literal in a `@row` directive always yields a
string-valued rule; an unquoted literal is accepted by the directive regex
only when it is a numeric token `-?digits(.digits)?`, and such a token
always parses as a float, so the string fallback for unquoted literals is
unreachable — an unquoted non-numeric literal such as in
`@row status==active:color=red` makes the whole directive fail to parse
(no rule), rather than producing a string-valued rule. -/
theorem c2_unquoted_literal_numeric (u tok rest : List Char)
    (h : scanNumColon u = some (tok, rest)) :
    (∃ q, parseFloatL tok = some q) ∧
    parseRowDirective "@row status==active:color=red" = none ∧
    parseRowDirective ("@row status==" ++ dqS ++ "active" ++ dqS ++ ":color=red") =
      some ⟨"status", CmpOp.eq, .str "active", ⟨some "red", none, none, none⟩⟩ ∧
    parseRowDirective "@row sales>1000000:bold=true" =
      some ⟨"sales", CmpOp.gt, .num 1000000, ⟨none, none, some true, some "bold"⟩⟩ := by
  refine ⟨?_, by decide, by decide, by decide⟩
  simp only [scanNumColon] at h
  by_cases hneg : u.head? = some '-'
  · rw [if_pos hneg, if_pos hneg] at h
    set D := u.tail.takeWhile Char.isDigit with hDq
    set r1 := u.tail.dropWhile Char.isDigit with hr1q
    have hall : ∀ c ∈ D, c.isDigit = true := fun c hc => List.mem_takeWhile_imp hc
    by_cases hD : D = []
    · rw [if_pos hD] at h
      exact absurd h (by simp)
    · rw [if_neg hD] at h
      by_cases hc1 : r1.head? = some ':'
      · rw [if_pos hc1] at h
        have htok : tok = '-' :: D := by
          have := (Option.some.injEq _ _).mp h
          have := (Prod.mk.injEq _ _ _ _).mp this.symm
          simpa using this.1
        rw [htok]
        exact (parseFloatL_digit_run D [] hD hall (Or.inl rfl)).2.imp
          (fun q hq => by simpa using hq)
      · rw [if_neg hc1] at h
        by_cases hc2 : r1.head? = some '.'
        · rw [if_pos hc2] at h
          set F := r1.tail.takeWhile Char.isDigit with hFq
          by_cases hF : F = []
          · rw [if_pos hF] at h
            exact absurd h (by simp)
          · rw [if_neg hF] at h
            by_cases hc3 : (r1.tail.dropWhile Char.isDigit).head? = some ':'
            · rw [if_pos hc3] at h
              have htok : tok = '-' :: (D ++ '.' :: F) := by
                have := (Option.some.injEq _ _).mp h
                have := (Prod.mk.injEq _ _ _ _).mp this.symm
                simpa using this.1
              rw [htok]
              exact (parseFloatL_digit_run D ('.' :: F) hD hall (Or.inr ⟨F, rfl⟩)).2.imp
                (fun q hq => hq)
            · rw [if_neg hc3] at h
              exact absurd h (by simp)
        · rw [if_neg hc2] at h
          exact absurd h (by simp)
  · rw [if_neg hneg, if_neg hneg] at h
    set D := u.takeWhile Char.isDigit with hDq
    set r1 := u.dropWhile Char.isDigit with hr1q
    have hall : ∀ c ∈ D, c.isDigit = true := fun c hc => List.mem_takeWhile_imp hc
    by_cases hD : D = []
    · rw [if_pos hD] at h
      exact absurd h (by simp)
    · rw [if_neg hD] at h
      by_cases hc1 : r1.head? = some ':'
      · rw [if_pos hc1] at h
        have htok : tok = D := by
          have := (Option.some.injEq _ _).mp h
          have := (Prod.mk.injEq _ _ _ _).mp this.symm
          simpa using this.1
        rw [htok]
        have := (parseFloatL_digit_run D [] hD hall (Or.inl rfl)).1
        simpa using this
      · rw [if_neg hc1] at h
        by_cases hc2 : r1.head? = some '.'
        · rw [if_pos hc2] at h
          set F := r1.tail.takeWhile Char.isDigit with hFq
          by_cases hF : F = []
          · rw [if_pos hF] at h
            exact absurd h (by simp)
          · rw [if_neg hF] at h
            by_cases hc3 : (r1.tail.dropWhile Char.isDigit).head? = some ':'
            · rw [if_pos hc3] at h
              have htok : tok = D ++ '.' :: F := by
                have := (Option.some.injEq _ _).mp h
                have := (Prod.mk.injEq _ _ _ _).mp this.symm
                simpa using this.1
              rw [htok]
              exact (parseFloatL_digit_run D ('.' :: F) hD hall (Or.inr ⟨F, rfl⟩)).1
            · rw [if_neg hc3] at h
              exact absurd h (by simp)
        · rw [if_neg hc2] at h
          exact absurd h (by simp)

/-- Witness for C2 at the concrete token `12` (from an input `12:x`). -/
theorem c2_witness :
    (∃ q, parseFloatL ("12".toList) = some q) ∧
    parseRowDirective "@row status==active:color=red" = none := by
  have h := c2_unquoted_literal_numeric ("12:x".toList) ("12".toList) ("x".toList) (by decide)
  exact ⟨h.1, h.2.1⟩

/-- Counterexample to C2 as stated: the unquoted non-numeric literal of
`@row status==active:color=red` does not fall back to a string comparison;
the directive regex fails to match and the parser returns null. -/
theorem c2_counterexample :
    parseRowDirective "@row status==active:color=red" = none := by decide

theorem takeWhile_nil_of_all_false {p : Char → Bool} {l : List Char}
    (h : ∀ c ∈ l, p c = false) : l.takeWhile p = [] := by
  cases l with
  | nil => rfl
  | cons c t => rw [List.takeWhile_cons, h c (by simp)]; rfl

theorem dropWhile_id_of_all_false {p : Char → Bool} {l : List Char}
    (h : ∀ c ∈ l, p c = false) : l.dropWhile p = l := by
  cases l with
  | nil => rfl
  | cons c t => rw [List.dropWhile_cons, h c (by simp)]; rfl

theorem isPrefixOf_append_self (p r : List Char) : p.isPrefixOf (p ++ r) = true := by
  induction p with
  | nil => simp [List.isPrefixOf]
  | cons c t ih => simp [List.isPrefixOf, ih]

theorem tryColumnAt_head_fail (l : List Char) (h1 : l ≠ [])
    (h2 : ∀ c ∈ l, jsWs c = false) :
    tryColumnAt ("@column ".toList ++ l) = none := by
  have hpre : ("@column".toList).isPrefixOf ("@column ".toList ++ l) = true :=
    isPrefixOf_append_self "@column".toList (' ' :: l)
  have hdrop : ("@column ".toList ++ l).drop 7 = ' ' :: l :=
    List.drop_left "@column".toList (' ' :: l)
  have htW : (' ' :: l).takeWhile jsWs = [' '] := by
    rw [List.takeWhile_cons]
    simp [takeWhile_nil_of_all_false h2, show jsWs ' ' = true from by decide]
  have hdW : (' ' :: l).dropWhile jsWs = l := by
    rw [List.dropWhile_cons]
    simp [dropWhile_id_of_all_false h2, show jsWs ' ' = true from by decide]
  have hnm : l.takeWhile (fun c => !(jsWs c)) = l :=
    takeWhile_all (fun c hc => by simp [h2 c hc])
  have hrest : l.dropWhile (fun c => !(jsWs c)) = [] :=
    dropWhile_all (fun c hc => by simp [h2 c hc])
  simp only [tryColumnAt]
  rw [if_pos hpre, hdrop, htW, hdW, hnm, hrest]
  simp [h1]

theorem goColumn_nonws : ∀ s : List Char, (∀ c ∈ s, jsWs c = false) →
    goColumn s = none := by
  intro s
  induction s with
  | nil => intro _; rfl
  | cons c t ih =>
    intro h
    have htry : tryColumnAt (c :: t) = none := by
      simp only [tryColumnAt]
      by_cases hp : ("@column".toList).isPrefixOf (c :: t) = true
      · rw [if_pos hp]
        have hW : ((c :: t).drop 7).takeWhile jsWs = [] :=
          takeWhile_nil_of_all_false (fun x hx => h x (List.mem_of_mem_drop hx))
        rw [hW]
        simp
      · rw [if_neg hp]
    simp only [goColumn]
    rw [htry]
    exact ih (fun x hx => h x (List.mem_cons_of_mem _ hx))

theorem goColumn_no_at (pre l : List Char) (hpre : ∀ c ∈ pre, c ≠ '@')
    (hl : ∀ c ∈ l, jsWs c = false) : goColumn (pre ++ l) = none := by
  induction pre with
  | nil => exact goColumn_nonws l hl
  | cons c p ih =>
    rw [List.cons_append]
    have htry : tryColumnAt (c :: (p ++ l)) = none := by
      simp only [tryColumnAt]
      have hp : ("@column".toList).isPrefixOf (c :: (p ++ l)) = false := by
        cases hb : ("@column".toList).isPrefixOf (c :: (p ++ l)) with
        | false => rfl
        | true => exact absurd (isPrefixOf_cons_head hb) (hpre c (by simp))
      rw [hp]
      simp
    simp only [goColumn]
    rw [htry]
    exact ih (fun x hx => hpre x (List.mem_cons_of_mem _ hx))

/-- C10: a `@column` directive line that consists of the column name with
nothing after it fails the directive regex (which requires whitespace after
the name), so `parseColumnDirective` returns null for every such line and
`parseOptions` produces no entry for that column. -/
theorem c10_clauseless_column_dropped (l : List Char) (h1 : l ≠ [])
    (h2 : ∀ c ∈ l, jsWs c = false) :
    parseColumnDirective (String.mk ("@column ".toList ++ l)) = none ∧
    parseOptions "/**\n * @column price\n */\nSELECT * FROM items" =
      .ok ⟨[], [], none⟩ := by
  constructor
  · have htry : tryColumnAt ("@column ".toList ++ l) = none := tryColumnAt_head_fail l h1 h2
    have hrest : goColumn ("column ".toList ++ l) = none :=
      goColumn_no_at "column ".toList l (by decide) h2
    have hg : goColumn ("@column ".toList ++ l) = none := by
      have e : "@column ".toList ++ l = '@' :: ("column ".toList ++ l) := rfl
      rw [e] at htry ⊢
      simp only [goColumn]
      rw [htry]
      exact hrest
    have hg2 : goColumn ((String.mk ("@column ".toList ++ l)).toList) = none := hg
    unfold parseColumnDirective
    rw [hg2]
  · decide

/-- Witness for C10 at the concrete directive `@column price`. -/
theorem c10_witness :
    parseColumnDirective (String.mk ("@column ".toList ++ "price".toList)) = none ∧
    parseOptions "/**\n * @column price\n */\nSELECT * FROM items" =
      .ok ⟨[], [], none⟩ := by
  exact c10_clauseless_column_dropped ("price".toList) (by decide) (by decide)

set_option maxHeartbeats 1600000 in
theorem applyChartClause_fields {st st' : ChartState} {k : String} {v : Option String}
    (h : applyChartClause st (k, v) = .ok st') :
    (k ≠ "type" → st'.ctype = st.ctype) ∧
    (k ≠ "legend" ∧ k ≠ "showLegend" → st'.legend = st.legend) ∧
    (k ≠ "grid" ∧ k ≠ "showGrid" → st'.grid = st.grid) ∧
    (k ≠ "stacked" → st'.stk = st.stk) ∧
    (k ≠ "curve" → st'.curve = st.curve) := by
  simp only [applyChartClause] at h
  cases v with
  | none =>
    split_ifs at h
    all_goals first
      | exact Except.noConfusion h
      | (simp only [Except.ok.injEq] at h
         subst h
         refine ⟨fun hh1 => ?_, fun hh2 => ?_, fun hh3 => ?_, fun hh4 => ?_, fun hh5 => ?_⟩
           <;> first | rfl | simp_all)
  | some s =>
    split_ifs at h
    all_goals (simp only [Except.ok.injEq] at h
               subst h
               refine ⟨fun hh1 => ?_, fun hh2 => ?_, fun hh3 => ?_, fun hh4 => ?_, fun hh5 => ?_⟩
                 <;> first | rfl | simp_all)

theorem chartFoldM_fields : ∀ (cl : List (String × Option String)) (st st' : ChartState),
    List.foldlM applyChartClause st cl = .ok st' →
    ((∀ v, ("type", v) ∉ cl) → st'.ctype = st.ctype) ∧
    ((∀ v, ("legend", v) ∉ cl ∧ ("showLegend", v) ∉ cl) → st'.legend = st.legend) ∧
    ((∀ v, ("grid", v) ∉ cl ∧ ("showGrid", v) ∉ cl) → st'.grid = st.grid) ∧
    ((∀ v, ("stacked", v) ∉ cl) → st'.stk = st.stk) ∧
    ((∀ v, ("curve", v) ∉ cl) → st'.curve = st.curve) := by
  intro cl
  induction cl with
  | nil =>
    intro st st' h
    have hss : st = st' := Except.ok.inj (show Except.ok st = Except.ok st' from h)
    subst hss
    exact ⟨fun _ => rfl, fun _ => rfl, fun _ => rfl, fun _ => rfl, fun _ => rfl⟩
  | cons kv cl ih =>
    intro st st' h
    rw [List.foldlM_cons] at h
    cases happ : applyChartClause st kv with
    | error e =>
      rw [happ] at h
      exact Except.noConfusion h
    | ok st1 =>
      rw [happ] at h
      have h2 : List.foldlM applyChartClause st1 cl = .ok st' := h
      obtain ⟨f1, f2, f3, f4, f5⟩ := ih st1 st' h2
      obtain ⟨kk, vv⟩ := kv
      have hstep := applyChartClause_fields happ
      refine ⟨?_, ?_, ?_, ?_, ?_⟩
      · intro hno
        rw [f1 (fun v hm => hno v (List.mem_cons_of_mem _ hm))]
        exact hstep.1 (fun he => hno vv (by rw [he]; exact List.mem_cons_self _ _))
      · intro hno
        rw [f2 (fun v => ⟨fun hm => (hno v).1 (List.mem_cons_of_mem _ hm),
                          fun hm => (hno v).2 (List.mem_cons_of_mem _ hm)⟩)]
        refine hstep.2.1 ⟨fun he => (hno vv).1 (by rw [he]; exact List.mem_cons_self _ _),
                          fun he => (hno vv).2 (by rw [he]; exact List.mem_cons_self _ _)⟩
      · intro hno
        rw [f3 (fun v => ⟨fun hm => (hno v).1 (List.mem_cons_of_mem _ hm),
                          fun hm => (hno v).2 (List.mem_cons_of_mem _ hm)⟩)]
        refine hstep.2.2.1 ⟨fun he => (hno vv).1 (by rw [he]; exact List.mem_cons_self _ _),
                            fun he => (hno vv).2 (by rw [he]; exact List.mem_cons_self _ _)⟩
      · intro hno
        rw [f4 (fun v hm => hno v (List.mem_cons_of_mem _ hm))]
        exact hstep.2.2.2.1 (fun he => hno vv (by rw [he]; exact List.mem_cons_self _ _))
      · intro hno
        rw [f5 (fun v hm => hno v (List.mem_cons_of_mem _ hm))]
        exact hstep.2.2.2.2 (fun he => hno vv (by rw [he]; exact List.mem_cons_self _ _))

/-- C3 (amended): a `ChartSpec` is produced exactly when the parsed x value
is non-empty and the parsed y list (comma-split, trimmed, empties dropped)
is non-empty; when no spec is produced and the clause fold completes, the
computed x or y really was empty (the directive yields null) — except that
a `y`/`yAxis` clause with an empty quoted value makes the clause loop throw
(`undefined.split`), modelled as `Except.error`, instead of returning null.
Every field whose clause is absent keeps its default: type=line,
showLegend=true, showGrid=true, stacked=false, curve=smooth. -/
theorem c3_chart_iff_and_defaults (cl : List (String × Option String)) :
    (∀ spec, chartBuild cl = .ok (some spec) →
      (spec.xAxis ≠ "" ∧ spec.yAxis ≠ []) ∧
      ((∀ v, ("type", v) ∉ cl) → spec.type = ChartType.line) ∧
      ((∀ v, ("legend", v) ∉ cl ∧ ("showLegend", v) ∉ cl) → spec.showLegend = true) ∧
      ((∀ v, ("grid", v) ∉ cl ∧ ("showGrid", v) ∉ cl) → spec.showGrid = true) ∧
      ((∀ v, ("stacked", v) ∉ cl) → spec.stacked = false) ∧
      ((∀ v, ("curve", v) ∉ cl) → spec.curve = Curve.smooth)) ∧
    (chartBuild cl = .ok none →
      ∃ st, chartFold cl = .ok st ∧ (st.x = none ∨ st.x = some "" ∨ st.y = [])) ∧
    parseChartDirective "@chart type=line x=日付 y=店舗A,店舗B" =
      .ok (some ⟨ChartType.line, "日付", ["店舗A", "店舗B"], none, true, true, false,
                 Curve.smooth⟩) := by
  refine ⟨?_, ?_, by decide⟩
  · intro spec h
    unfold chartBuild at h
    cases hf : chartFold cl with
    | error e =>
      rw [hf] at h
      exact Except.noConfusion h
    | ok st =>
      rw [hf] at h
      have hfin : finalizeChart st = some spec :=
        Except.ok.inj (show Except.ok (finalizeChart st) = Except.ok (some spec) from h)
      unfold finalizeChart at hfin
      by_cases hc : st.x = none ∨ st.x = some "" ∨ st.y = []
      · rw [if_pos hc] at hfin
        exact Option.noConfusion hfin
      · rw [if_neg hc] at hfin
        push_neg at hc
        obtain ⟨hx1, hx2, hy⟩ := hc
        have hspec := Option.some.inj hfin
        subst hspec
        obtain ⟨f1, f2, f3, f4, f5⟩ := chartFoldM_fields cl initChartState st hf
        refine ⟨⟨?_, hy⟩, fun hno => (f1 hno).trans rfl, fun hno => (f2 hno).trans rfl,
          fun hno => (f3 hno).trans rfl, fun hno => (f4 hno).trans rfl,
          fun hno => (f5 hno).trans rfl⟩
        show st.x.getD "" ≠ ""
        cases hxv : st.x with
        | none => exact absurd hxv hx1
        | some s =>
          rw [hxv] at hx2
          simpa using fun he => hx2 (by rw [he])
  · intro h
    unfold chartBuild at h
    cases hf : chartFold cl with
    | error e =>
      rw [hf] at h
      exact Except.noConfusion h
    | ok st =>
      rw [hf] at h
      have hfin : finalizeChart st = none :=
        Except.ok.inj (show Except.ok (finalizeChart st) = Except.ok none from h)
      refine ⟨st, rfl, ?_⟩
      unfold finalizeChart at hfin
      by_cases hc : st.x = none ∨ st.x = some "" ∨ st.y = []
      · exact hc
      · rw [if_neg hc] at hfin
        exact Option.noConfusion hfin

/-- Witness for C3 at the concrete clause list of `@chart x=a y=b`. -/
theorem c3_witness :
    ChartDisplayOptions.xAxis
      ⟨ChartType.line, "a", ["b"], none, true, true, false, Curve.smooth⟩ ≠ "" ∧
    ChartDisplayOptions.showLegend
      ⟨ChartType.line, "a", ["b"], none, true, true, false, Curve.smooth⟩ = true := by
  have h := (c3_chart_iff_and_defaults [("x", some "a"), ("y", some "b")]).1
    ⟨ChartType.line, "a", ["b"], none, true, true, false, Curve.smooth⟩ (by decide)
  exact ⟨h.1.1, h.2.2.1 (fun v => ⟨by simp, by simp⟩)⟩

/-- Counterexample to C3 as stated: on the directive `@chart x=a y=""` the
validator neither produces a spec nor returns null — the `undefined` clause
value reaches `value.split(',')` and the parser throws. -/
theorem c3_counterexample :
    parseChartDirective ("@chart x=a y=" ++ dqS ++ dqS) = .error () := by decide

/-- C5 (amended): clauses with enumerated-value keys (`type`, `align`,
`format`, `curve`) are silently ignored when the value is unrecognized,
leaving the field at its default — but boolean-valued keys interpret every
value other than the literal `true` as false: a `legend`/`grid` clause with
an unrecognized value sets showLegend/showGrid to false, overriding their
default of true. -/
theorem c5_boolean_value_not_ignored (v : Option String) (h : v ≠ some "true") :
    applyChartClause initChartState ("legend", v) =
      .ok { initChartState with legend := false } ∧
    applyChartClause initChartState ("grid", v) =
      .ok { initChartState with grid := false } ∧
    parseChartDirective "@chart x=a y=b legend=yes" =
      .ok (some ⟨ChartType.line, "a", ["b"], none, false, true, false, Curve.smooth⟩) ∧
    parseChartDirective "@chart x=a y=b type=bogus" =
      .ok (some ⟨ChartType.line, "a", ["b"], none, true, true, false, Curve.smooth⟩) ∧
    parseColumnDirective "@column c align=middle width=5" =
      some { columnName := "c", width := some "5" } := by
  have hjs : jsEqTrue v = false := by
    cases v with
    | none => rfl
    | some s =>
      have hs : ¬(s = "true") := fun he => h (by rw [he])
      simp [jsEqTrue, hs]
  refine ⟨?_, ?_, by decide, by decide, by decide⟩
  · have e : applyChartClause initChartState ("legend", v) =
        .ok { initChartState with legend := jsEqTrue v } := rfl
    rw [e, hjs]
  · have e : applyChartClause initChartState ("grid", v) =
        .ok { initChartState with grid := jsEqTrue v } := rfl
    rw [e, hjs]

/-- Witness for C5 at the concrete value `yes`. -/
theorem c5_witness :
    applyChartClause initChartState ("legend", some "yes") =
      .ok { initChartState with legend := false } ∧
    parseChartDirective "@chart x=a y=b legend=yes" =
      .ok (some ⟨ChartType.line, "a", ["b"], none, false, true, false, Curve.smooth⟩) := by
  have h := c5_boolean_value_not_ignored (some "yes") (by decide)
  exact ⟨h.1, h.2.2.1⟩

/-- Counterexample to C5 as stated: the `@chart` directive
`x=a y=b legend=yes` has a recognized key `legend` with an unrecognized
value, yet showLegend ends up false, not at its default of true. -/
theorem c5_counterexample :
    parseChartDirective "@chart x=a y=b legend=yes" =
      .ok (some ⟨ChartType.line, "a", ["b"], none, false, true, false, Curve.smooth⟩) := by
  decide
